import Mathlib

/-!
# Verification of the rust_ffi compression facade

Shallow embedding of `src/rust_ffi_example/src/lib.rs` and of the container
and varint logic its FFI boundary relies on.  Bytes are `Nat` (values below
256 in every reachable state), byte sequences are `List Nat`, errors are the
literal `&'static str` messages of the Rust source carried in `Except`.

The raw C backends (`src/clib.c`, referenced by `build.rs` but not present
under `src/`) are treated as the spec treats them: black-box functions
returning a foreign buffer (`some bytes`) or a null pointer (`none`).  Every
Rust wrapper is therefore embedded parametrically over the raw call it
wraps, and additionally returns the list of FFI events it performed, so that
call/release discipline is a provable property of the embedding.
-/

/-- Boolean error discriminator for `Except` results. -/
def isErr {epsilon alpha : Type} : Except epsilon alpha → Bool
  | .error _ => true
  | .ok _ => false

/-- Number of binary digits of a natural number: `bitlen 0 = 0`,
`bitlen v = log2 v + 1` otherwise.  This is the `bitlength` of the spec. -/
def bitlen (n : Nat) : Nat :=
  if n = 0 then 0 else bitlen (n / 2) + 1
decreasing_by exact Nat.div_lt_self (Nat.pos_of_ne_zero (by assumption)) (by omega)

/-- Is a byte a UTF-8 continuation byte (`10xxxxxx`)? -/
def utf8Cont (b : Nat) : Bool :=
  0x80 ≤ b && b ≤ 0xBF

/-- One multi-byte UTF-8 sequence step: given a non-ASCII leading byte and
the bytes after it, consume the continuation bytes of the sequence and
return the remainder, or `none` when the leading byte or a continuation
byte is out of range.  The ranges are those accepted by Rust
`String::from_utf8`: 2-byte forms `C2..DF` (overlongs `C0`/`C1` rejected),
3-byte forms with the `E0`/`ED` overlong- and surrogate-excluding ranges,
4-byte forms with the `F0`/`F4` ranges bounding code points to `U+10FFFF`. -/
def utf8Step (b : Nat) (rest : List Nat) : Option (List Nat) :=
  if 0xC2 ≤ b && b ≤ 0xDF then
    match rest with
    | c :: rest2 => if utf8Cont c then some rest2 else none
    | [] => none
  else if b = 0xE0 then
    match rest with
    | c :: d :: rest2 => if (0xA0 ≤ c && c ≤ 0xBF) && utf8Cont d then some rest2 else none
    | _ => none
  else if (0xE1 ≤ b && b ≤ 0xEC) || b = 0xEE || b = 0xEF then
    match rest with
    | c :: d :: rest2 => if utf8Cont c && utf8Cont d then some rest2 else none
    | _ => none
  else if b = 0xED then
    match rest with
    | c :: d :: rest2 => if (0x80 ≤ c && c ≤ 0x9F) && utf8Cont d then some rest2 else none
    | _ => none
  else if b = 0xF0 then
    match rest with
    | c :: d :: e :: rest2 =>
        if (0x90 ≤ c && c ≤ 0xBF) && utf8Cont d && utf8Cont e then some rest2 else none
    | _ => none
  else if 0xF1 ≤ b && b ≤ 0xF3 then
    match rest with
    | c :: d :: e :: rest2 =>
        if utf8Cont c && utf8Cont d && utf8Cont e then some rest2 else none
    | _ => none
  else if b = 0xF4 then
    match rest with
    | c :: d :: e :: rest2 =>
        if (0x80 ≤ c && c ≤ 0x8F) && utf8Cont d && utf8Cont e then some rest2 else none
    | _ => none
  else none

/-- Fuel-driven UTF-8 scan; each step consumes at least one byte, so any
fuel at least the length of the list gives the full validation verdict. -/
def isValidUtf8Go : Nat → List Nat → Bool
  | _, [] => true
  | 0, _ :: _ => false
  | fuel + 1, b :: rest =>
    if b ≤ 0x7F then isValidUtf8Go fuel rest
    else
      match utf8Step b rest with
      | some rest2 => isValidUtf8Go fuel rest2
      | none => false

/-- UTF-8 validity of a byte sequence, the acceptance condition of Rust
`String::from_utf8` used by the decompress wrappers. -/
def isValidUtf8 (l : List Nat) : Bool := isValidUtf8Go l.length l

/-- Modelled from the spec: the C varint encoder `encode_varint` of
`src/clib.c` (declared at `lib.rs:31`, the C definition is not under
`src/`).  Per spec 4.1: emit the low 7 bits with the continuation bit set
while value remains, shift right by 7, always at least one byte. -/
def encodeVarintCore (v : Nat) : List Nat :=
  if v < 128 then [v]
  else (v % 128 + 128) :: encodeVarintCore (v / 128)
decreasing_by exact Nat.div_lt_self (by omega) (by omega)

/-- Modelled from the spec: the byte loop of the C varint decoder
`decode_varint` of `src/clib.c` (declared at `lib.rs:32`, the C definition
is not under `src/`).  Per spec 4.1: accumulate 7 bits per byte at
increasing shift offsets while the continuation bit is set; `none` when the
input ends with the continuation bit still set (`Truncated`) or when more
than 10 bytes would be consumed (`Overflow`).  On success it returns the
value and the exact number of bytes the varint occupied. -/
def decodeVarintAux : List Nat → Nat → Nat → Nat → Option (Nat × Nat)
  | [], _, _, _ => none
  | b :: rest, acc, shift, count =>
    if 10 ≤ count then none
    else
      let acc2 := acc + b % 128 * 2 ^ shift
      if b < 128 then some (acc2, count + 1)
      else decodeVarintAux rest acc2 (shift + 7) (count + 1)

/-- Modelled from the spec: the C `decode_varint` call convention — it
returns the signed byte count (negative on failure) and writes the decoded
value through its out-pointer (`0` when it fails before writing). -/
def decode_varint_c (data : List Nat) : Int × Nat :=
  match decodeVarintAux data 0 0 0 with
  | some (v, n) => ((n : Int), v)
  | none => (-1, 0)

/-- The Rust wrapper `decode_varint_rust` (`lib.rs:188-212`) parametrized
by the native decoder it calls, so that the wrapper checks are properties
of the wrapper alone: empty input is rejected before the native call, a
negative native count and a count exceeding the input length each become an
error. -/
def decodeVarintWrapper (native : List Nat → Int × Nat) (data : List Nat) :
    Except String (Nat × Nat) :=
  if data.isEmpty then .error "Empty input data"
  else
    let r := native data
    if r.1 < 0 then .error "Failed to decode varint"
    else if (data.length : Int) < r.1 then .error "Invalid bytes read count"
    else .ok (r.2, r.1.toNat)

/-- `decode_varint_rust` of `lib.rs:188-212`, the wrapper applied to the
modelled C decoder. -/
def decode_varint_rust (data : List Nat) : Except String (Nat × Nat) :=
  decodeVarintWrapper decode_varint_c data

/-- `encode_varint_rust` of `lib.rs:161-175`: a 10-byte zeroed buffer, the
C encoder writes into it and reports a count, counts outside `0..=10` are
rejected, the buffer is truncated to the count. -/
def encode_varint_rust (v : Nat) : Except String (List Nat) :=
  let buffer := List.replicate 10 0
  let written := encodeVarintCore v
  let bytes_written : Int := written.length
  let buffer2 := written ++ buffer.drop written.length
  if bytes_written < 0 ∨ 10 < bytes_written then
    .error "Invalid bytes written by encode_varint"
  else .ok (buffer2.take bytes_written.toNat)

/-- One FFI action performed by a wrapper, recorded in program order. -/
inductive FFIEvent : Type
  | callRawCompress (input : List Nat)
  | callFreeCompressed
  | callRawDecompress (input : List Nat)
  | callFreeDecompressed
deriving DecidableEq

/-- Occurrences of one event in a trace. -/
def countEvent (e : FFIEvent) : List FFIEvent → Nat
  | [] => 0
  | x :: tr => (if x = e then 1 else 0) + countEvent e tr

/-- `compress_rust_string` of `lib.rs:47-86`, parametric over the raw
`compress_string` backend call: the `CString` conversion rejects interior
zero bytes before any FFI happens; a null backend buffer becomes an error
with no release call; otherwise the buffer is copied and released exactly
once.  The second component is the FFI event trace. -/
def compress_rust_string (raw : List Nat → Option (List Nat)) (s : List Nat) :
    Except String (List Nat) × List FFIEvent :=
  if 0 ∈ s then
    (.error "Failed to create CString, input might contain null bytes", [])
  else
    match raw s with
    | none =>
        (.error "Compression failed in C library (null buffer returned)",
         [.callRawCompress s])
    | some buf => (.ok buf, [.callRawCompress s, .callFreeCompressed])

/-- `decompress_rust_data` of `lib.rs:101-148`, parametric over the raw
`decompress_data` backend call: inputs of length 0 and 1 are rejected
before any FFI, a null buffer becomes an error with no release, otherwise
the buffer is copied, released, and only then validated as UTF-8 — the
release happens on the invalid-UTF-8 path too. -/
def decompress_rust_data (raw : List Nat → Option (List Nat))
    (compressed_data : List Nat) : Except String (List Nat) × List FFIEvent :=
  if compressed_data.isEmpty then (.error "Empty input data", [])
  else if compressed_data.length = 1 then
    (.error "Input too small for valid compressed data", [])
  else
    match raw compressed_data with
    | none => (.error "Decompression failed", [.callRawDecompress compressed_data])
    | some buf =>
        if isValidUtf8 buf then
          (.ok buf, [.callRawDecompress compressed_data, .callFreeDecompressed])
        else
          (.error "Decompressed data is not valid UTF-8",
           [.callRawDecompress compressed_data, .callFreeDecompressed])

/-- `compress_rust_string_lz4` of `lib.rs:226-257`: same shape as the zlib
wrapper, with the LZ4 error messages of the source. -/
def compress_rust_string_lz4 (raw : List Nat → Option (List Nat)) (s : List Nat) :
    Except String (List Nat) × List FFIEvent :=
  if 0 ∈ s then
    (.error "Failed to create CString, input might contain null bytes", [])
  else
    match raw s with
    | none =>
        (.error "LZ4 Compression failed in C library (null buffer returned)",
         [.callRawCompress s])
    | some buf => (.ok buf, [.callRawCompress s, .callFreeCompressed])

/-- `decompress_rust_data_lz4` of `lib.rs:272-311`: the small-input floor
is written `len < 2` in the source (the zlib wrapper writes `is_empty`
then `len == 1`), the rest is the same validate-null, copy, release,
UTF-8-check sequence. -/
def decompress_rust_data_lz4 (raw : List Nat → Option (List Nat))
    (compressed_data : List Nat) : Except String (List Nat) × List FFIEvent :=
  if compressed_data.isEmpty then (.error "Empty input data for LZ4 decompression", [])
  else if compressed_data.length < 2 then
    (.error "Input too small for valid LZ4 compressed data", [])
  else
    match raw compressed_data with
    | none =>
        (.error "LZ4 Decompression failed in C library (null buffer returned)",
         [.callRawDecompress compressed_data])
    | some buf =>
        if isValidUtf8 buf then
          (.ok buf, [.callRawDecompress compressed_data, .callFreeDecompressed])
        else
          (.error "LZ4 Decompressed data is not valid UTF-8",
           [.callRawDecompress compressed_data, .callFreeDecompressed])

/-- Modelled from the spec: `compress_rust_string_zstd`, exposed by the
facade and exercised by `examples/compression_decompression_demo.rs` and
`fuzz/fuzz_targets/fuzz_zstd_rust_roundtrip.rs` but not defined under
`src/`.  Per spec 4.3 every CodecAdapter follows the identical CString
check, raw call, null check, copy, release sequence; the fuzz target pins
the CString failure message to the shared one. -/
def compress_rust_string_zstd (raw : List Nat → Option (List Nat)) (s : List Nat) :
    Except String (List Nat) × List FFIEvent :=
  if 0 ∈ s then
    (.error "Failed to create CString, input might contain null bytes", [])
  else
    match raw s with
    | none =>
        (.error "ZSTD Compression failed in C library (null buffer returned)",
         [.callRawCompress s])
    | some buf => (.ok buf, [.callRawCompress s, .callFreeCompressed])

/-- Modelled from the spec: `decompress_rust_data_zstd`, exposed by the
facade but not defined under `src/`.  Per spec 4.3 and 4.4 it applies the
2-byte structural floor, then the validate-null, copy, release, UTF-8
sequence of every adapter. -/
def decompress_rust_data_zstd (raw : List Nat → Option (List Nat))
    (compressed_data : List Nat) : Except String (List Nat) × List FFIEvent :=
  if compressed_data.isEmpty then (.error "Empty input data for ZSTD decompression", [])
  else if compressed_data.length < 2 then
    (.error "Input too small for valid ZSTD compressed data", [])
  else
    match raw compressed_data with
    | none =>
        (.error "ZSTD Decompression failed in C library (null buffer returned)",
         [.callRawDecompress compressed_data])
    | some buf =>
        if isValidUtf8 buf then
          (.ok buf, [.callRawDecompress compressed_data, .callFreeDecompressed])
        else
          (.error "ZSTD Decompressed data is not valid UTF-8",
           [.callRawDecompress compressed_data, .callFreeDecompressed])

/-- Modelled from the spec: the container-producing side of the C
`compress_string` family of `src/clib.c` (not under `src/`).  Per spec 4.4,
`Container.compress` prepends the varint encoding of the original length to
the backend payload; a null backend result propagates as null. -/
def compress_string (bb : List Nat → Option (List Nat)) (input : List Nat) :
    Option (List Nat) :=
  match bb input with
  | none => none
  | some payload => some (encodeVarintCore input.length ++ payload)

/-- Modelled from the spec: the container-consuming side of the C
`decompress_data` family of `src/clib.c` (not under `src/`).  Per spec 4.4,
`Container.decompress` decodes the varint header, fails (null) when the
header is corrupt, and otherwise hands the remaining payload and the
decoded original length to the backend. -/
def decompress_data (bb : List Nat → Nat → Option (List Nat)) (input : List Nat) :
    Option (List Nat) :=
  match decodeVarintAux input 0 0 0 with
  | none => none
  | some (originalLength, headerSize) => bb (input.drop headerSize) originalLength

/-- The corruption of the fuzz-hardening scenario (`lib.rs:446-462`):
overwrite the first two bytes with `0xFF 0xFF`. -/
def corruptFirstTwo (xs : List Nat) : List Nat :=
  (xs.set 0 0xFF).set 1 0xFF

/-! ## Varint codec lemmas -/

/-- Below 128 the encoder emits the single byte of the value. -/
lemma encodeVarintCore_of_lt (v : Nat) (h : v < 128) : encodeVarintCore v = [v] := by
  rw [encodeVarintCore]
  simp [h]

/-- From 128 on the encoder emits a continuation byte and recurses. -/
lemma encodeVarintCore_of_ge (v : Nat) (h : 128 ≤ v) :
    encodeVarintCore v = (v % 128 + 128) :: encodeVarintCore (v / 128) := by
  rw [encodeVarintCore]
  simp [Nat.not_lt.mpr h]

/-- The encoder always emits at least one byte. -/
lemma encodeVarintCore_length_pos (v : Nat) : 1 ≤ (encodeVarintCore v).length := by
  rw [encodeVarintCore]
  split <;> simp

/-- `k + 1` bytes suffice exactly for values below `2 ^ (7 * (k + 1))`. -/
lemma encodeVarintCore_length_le_iff :
    ∀ (k v : Nat), (encodeVarintCore v).length ≤ k + 1 ↔ v < 2 ^ (7 * (k + 1)) := by
  intro k
  induction k with
  | zero =>
    intro v
    constructor
    · intro h
      by_contra hv
      rw [encodeVarintCore_of_ge v (by omega)] at h
      have := encodeVarintCore_length_pos (v / 128)
      simp only [List.length_cons] at h
      omega
    · intro h
      rw [encodeVarintCore_of_lt v (by simpa using h)]
      simp
  | succ k ih =>
    intro v
    have hpow : 2 ^ (7 * (k + 1)) * 128 = 2 ^ (7 * (k + 1 + 1)) := by
      rw [show 7 * (k + 1 + 1) = 7 * (k + 1) + 7 by ring, pow_add]
      norm_num
    by_cases hv : v < 128
    · rw [encodeVarintCore_of_lt v hv]
      simp only [List.length_cons, List.length_nil]
      have h128 : (128 : Nat) ≤ 2 ^ (7 * (k + 1 + 1)) := by
        calc (128 : Nat) = 2 ^ 7 := by norm_num
        _ ≤ 2 ^ (7 * (k + 1 + 1)) := Nat.pow_le_pow_right (by norm_num) (by omega)
      exact ⟨fun _ => lt_of_lt_of_le hv h128, fun _ => by omega⟩
    · rw [encodeVarintCore_of_ge v (Nat.not_lt.mp hv)]
      simp only [List.length_cons]
      have hdiv : v / 128 < 2 ^ (7 * (k + 1)) ↔ v < 2 ^ (7 * (k + 1)) * 128 :=
        Nat.div_lt_iff_lt_mul (by norm_num)
      constructor
      · intro h
        have := (ih (v / 128)).mp (by omega)
        rw [← hpow]
        exact hdiv.mp this
      · intro h
        have := (ih (v / 128)).mpr (hdiv.mpr (by omega))
        omega

/-- The number of binary digits bounds the value: `bitlen n ≤ k ↔ n < 2 ^ k`. -/
lemma bitlen_le_iff : ∀ (k n : Nat), bitlen n ≤ k ↔ n < 2 ^ k := by
  intro k
  induction k with
  | zero =>
    intro n
    by_cases hn : n = 0
    · subst hn
      rw [bitlen]
      simp
    · rw [bitlen]
      simp only [if_neg hn]
      constructor
      · omega
      · intro h
        omega
  | succ k ih =>
    intro n
    by_cases hn : n = 0
    · subst hn
      rw [bitlen]
      simp [Nat.pos_pow_of_pos]
    · rw [bitlen]
      simp only [if_neg hn]
      have h2 : n / 2 < 2 ^ k ↔ n < 2 ^ k * 2 := Nat.div_lt_iff_lt_mul (by norm_num)
      rw [Nat.succ_le_succ_iff, ih (n / 2), h2, pow_succ]

/-- Ceiling division by 7 transposed to a linear bound. -/
lemma div7_le_iff (b m : Nat) : (b + 6) / 7 ≤ m ↔ b ≤ 7 * m := by
  rw [Nat.div_le_iff_le_mul_add_pred (by norm_num)]
  omega

/-- The encoded length is exactly `ceil(bitlength / 7)`, floored at one
byte: the minimality clause of spec 4.1. -/
lemma encodeVarintCore_length_eq (v : Nat) :
    (encodeVarintCore v).length = max 1 ((bitlen v + 6) / 7) := by
  have hL := encodeVarintCore_length_pos v
  apply le_antisymm
  · have hM1 : 1 ≤ max 1 ((bitlen v + 6) / 7) := le_max_left _ _
    have hdiv : (bitlen v + 6) / 7 ≤ max 1 ((bitlen v + 6) / 7) := le_max_right _ _
    have hb : bitlen v ≤ 7 * max 1 ((bitlen v + 6) / 7) := (div7_le_iff _ _).mp hdiv
    have hv : v < 2 ^ (7 * max 1 ((bitlen v + 6) / 7)) := (bitlen_le_iff _ _).mp hb
    obtain ⟨M, hM⟩ : ∃ M, max 1 ((bitlen v + 6) / 7) = M + 1 :=
      ⟨max 1 ((bitlen v + 6) / 7) - 1, by omega⟩
    rw [hM] at hv ⊢
    exact (encodeVarintCore_length_le_iff M v).mpr hv
  · obtain ⟨L, hLe⟩ : ∃ L, (encodeVarintCore v).length = L + 1 :=
      ⟨(encodeVarintCore v).length - 1, by omega⟩
    have hv : v < 2 ^ (7 * (L + 1)) := (encodeVarintCore_length_le_iff L v).mp (by omega)
    have hb : bitlen v ≤ 7 * (L + 1) := (bitlen_le_iff _ _).mpr hv
    have hd : (bitlen v + 6) / 7 ≤ L + 1 := (div7_le_iff _ _).mpr hb
    rw [hLe]
    exact max_le (by omega) hd

/-- A 64-bit value fits in at most 10 varint bytes. -/
lemma encodeVarintCore_length_le_ten (v : Nat) (hv : v < 2 ^ 64) :
    (encodeVarintCore v).length ≤ 10 := by
  have h := (encodeVarintCore_length_le_iff 9 v).mpr
    (lt_of_lt_of_le hv (Nat.pow_le_pow_right (by norm_num) (by norm_num)))
  omega

/-- Decoding the encoder output embedded at any position: the accumulated
value gains `v` shifted into place, exactly the encoded bytes are consumed,
and the trailing bytes are never examined. -/
lemma decodeVarintAux_encode :
    ∀ (v : Nat) (rest : List Nat) (acc shift count : Nat),
      count + (encodeVarintCore v).length ≤ 10 →
      decodeVarintAux (encodeVarintCore v ++ rest) acc shift count
        = some (acc + v * 2 ^ shift, count + (encodeVarintCore v).length) := by
  intro v
  induction v using Nat.strong_induction_on with
  | _ v ih =>
    intro rest acc shift count hle
    by_cases hv : v < 128
    · rw [encodeVarintCore_of_lt v hv] at hle ⊢
      simp only [List.length_cons, List.length_nil] at hle ⊢
      simp only [List.cons_append, List.nil_append, decodeVarintAux]
      rw [if_neg (by omega), if_pos hv, Nat.mod_eq_of_lt hv]
    · have hge := Nat.not_lt.mp hv
      rw [encodeVarintCore_of_ge v hge] at hle ⊢
      have hlen2 := encodeVarintCore_length_pos (v / 128)
      simp only [List.length_cons] at hle ⊢
      simp only [List.cons_append, decodeVarintAux]
      rw [if_neg (show ¬ 10 ≤ count by omega), if_neg (show ¬ v % 128 + 128 < 128 by omega)]
      rw [show (v % 128 + 128) % 128 = v % 128 by omega]
      simp only [List.append_eq]
      rw [ih (v / 128) (Nat.div_lt_self (by omega) (by omega)) rest _ (shift + 7)
        (count + 1) (by omega)]
      have harith : acc + v % 128 * 2 ^ shift + v / 128 * 2 ^ (shift + 7)
          = acc + v * 2 ^ shift := by
        have h128 : v % 128 + 128 * (v / 128) = v := Nat.mod_add_div v 128
        conv_rhs => rw [← h128]
        rw [pow_add]
        ring
      rw [harith]
      simp only [Option.some.injEq, Prod.mk.injEq]
      exact ⟨trivial, by omega⟩

/-- The encoder output is never the empty list. -/
lemma encodeVarintCore_ne_nil (v : Nat) : encodeVarintCore v ≠ [] := by
  intro h
  have := encodeVarintCore_length_pos v
  rw [h] at this
  simp at this

/-- For a 64-bit value the Rust encode wrapper succeeds and hands back the
bytes the C encoder produced. -/
lemma encode_varint_rust_eq (v : Nat) (hv : v < 2 ^ 64) :
    encode_varint_rust v = .ok (encodeVarintCore v) := by
  have h10 := encodeVarintCore_length_le_ten v hv
  unfold encode_varint_rust
  rw [if_neg (by push_neg; omega)]
  congr 1
  rw [Int.toNat_ofNat]
  rw [List.take_left]

/-- The Rust decode wrapper on an encoder output followed by arbitrary
bytes: succeeds with the value and the encoded length. -/
lemma decode_varint_rust_encode_append (v : Nat) (hv : v < 2 ^ 64)
    (extra : List Nat) :
    decode_varint_rust (encodeVarintCore v ++ extra)
      = .ok (v, (encodeVarintCore v).length) := by
  have h10 := encodeVarintCore_length_le_ten v hv
  have hpos := encodeVarintCore_length_pos v
  have haux := decodeVarintAux_encode v extra 0 0 0 (by omega)
  simp only [Nat.zero_add, pow_zero, mul_one] at haux
  have hne : (encodeVarintCore v ++ extra).isEmpty = false := by
    cases h : encodeVarintCore v with
    | nil => exact absurd h (encodeVarintCore_ne_nil v)
    | cons a l => rfl
  unfold decode_varint_rust decodeVarintWrapper decode_varint_c
  rw [haux, hne]
  simp only [Bool.false_eq_true, if_false]
  rw [if_neg (by omega)]
  rw [if_neg (by
    push_neg
    rw [List.length_append]
    exact_mod_cast Nat.le_add_right _ _)]
  simp

/-- The modelled C container decode applied to a well-formed container:
the varint header is read off, the untouched payload and the decoded
original length reach the backend. -/
lemma decompress_data_container (bb : List Nat → Nat → Option (List Nat))
    (p : List Nat) (n : Nat) (hn : n < 2 ^ 64) :
    decompress_data bb (encodeVarintCore n ++ p) = bb p n := by
  have h10 := encodeVarintCore_length_le_ten n hn
  have haux := decodeVarintAux_encode n p 0 0 0 (by omega)
  simp only [Nat.zero_add, pow_zero, mul_one] at haux
  unfold decompress_data
  rw [haux]
  show bb (List.drop (encodeVarintCore n).length (encodeVarintCore n ++ p)) n = bb p n
  rw [List.drop_left]

/-- Prepending an ASCII byte does not change UTF-8 validity. -/
lemma isValidUtf8_cons_ascii (b : Nat) (rest : List Nat) (hb : b ≤ 0x7F) :
    isValidUtf8 (b :: rest) = isValidUtf8 rest := by
  show isValidUtf8Go (rest.length + 1) (b :: rest) = _
  rw [isValidUtf8Go, if_pos hb]
  rfl

/-- A run of one ASCII byte is valid UTF-8. -/
lemma isValidUtf8_replicate (n c : Nat) (hc : c ≤ 0x7F) :
    isValidUtf8 (List.replicate n c) = true := by
  induction n with
  | zero => rfl
  | succ n ih => rw [List.replicate_succ, isValidUtf8_cons_ascii c _ hc]; exact ih

/-- The decoder consumes at least one byte past its starting count. -/
lemma decodeVarintAux_count_lt :
    ∀ (l : List Nat) (acc shift count v n : Nat),
      decodeVarintAux l acc shift count = some (v, n) → count + 1 ≤ n := by
  intro l
  induction l with
  | nil => intro acc shift count v n h; exact absurd h (by rw [decodeVarintAux]; simp)
  | cons b rest ih =>
    intro acc shift count v n h
    rw [decodeVarintAux] at h
    by_cases hc : 10 ≤ count
    · rw [if_pos hc] at h; exact absurd h (by simp)
    · rw [if_neg hc] at h
      by_cases hb : b < 128
      · rw [if_pos hb] at h
        simp only [Option.some.injEq, Prod.mk.injEq] at h
        omega
      · rw [if_neg hb] at h
        have := ih _ _ _ _ _ h
        omega

/-- On a buffer starting with two continuation bytes the decoder, when it
succeeds, consumes at least three bytes. -/
lemma decodeVarintAux_ff_ff (rest : List Nat) (v n : Nat)
    (h : decodeVarintAux (0xFF :: 0xFF :: rest) 0 0 0 = some (v, n)) : 3 ≤ n := by
  rw [decodeVarintAux] at h
  rw [if_neg (by omega), if_neg (by omega)] at h
  rw [decodeVarintAux] at h
  rw [if_neg (by omega), if_neg (by omega)] at h
  have := decodeVarintAux_count_lt _ _ _ _ _ _ h
  omega

/-! ## Claim theorems: varint codec -/

/-- Claim C2: varint round-trip — for every u64 value, encoding succeeds
and decoding the encoded bytes yields exactly the value together with the
length of the encoded byte sequence. -/
theorem claim_C2_varint_roundtrip (v : Nat) (hv : v < 2 ^ 64) :
    encode_varint_rust v = .ok (encodeVarintCore v)
    ∧ decode_varint_rust (encodeVarintCore v)
        = .ok (v, (encodeVarintCore v).length) := by
  refine ⟨encode_varint_rust_eq v hv, ?_⟩
  have h := decode_varint_rust_encode_append v hv []
  rwa [List.append_nil] at h

/-- Witness for C2 at the concrete value 300. -/
theorem claim_C2_varint_roundtrip_witness :
    (300 : Nat) < 2 ^ 64
    ∧ (encode_varint_rust 300 = .ok (encodeVarintCore 300)
       ∧ decode_varint_rust (encodeVarintCore 300)
           = .ok (300, (encodeVarintCore 300).length)) :=
  ⟨by norm_num, claim_C2_varint_roundtrip 300 (by norm_num)⟩

/-- Claim C6: varint encode totality and minimal length — for every u64
value the Rust encode wrapper succeeds, and the emitted byte count is
exactly `ceil(bitlength / 7)`, floored at 1 (even for value 0) and capped
at 10. -/
theorem claim_C6_varint_encode_total_minimal (v : Nat) (hv : v < 2 ^ 64) :
    encode_varint_rust v = .ok (encodeVarintCore v)
    ∧ (encodeVarintCore v).length = max 1 ((bitlen v + 6) / 7)
    ∧ 1 ≤ (encodeVarintCore v).length
    ∧ (encodeVarintCore v).length ≤ 10 :=
  ⟨encode_varint_rust_eq v hv, encodeVarintCore_length_eq v,
   encodeVarintCore_length_pos v, encodeVarintCore_length_le_ten v hv⟩

/-- Witness for C6 at the concrete value 0, the floor case. -/
theorem claim_C6_varint_encode_total_minimal_witness :
    (0 : Nat) < 2 ^ 64
    ∧ (encode_varint_rust 0 = .ok (encodeVarintCore 0)
       ∧ (encodeVarintCore 0).length = max 1 ((bitlen 0 + 6) / 7)
       ∧ 1 ≤ (encodeVarintCore 0).length
       ∧ (encodeVarintCore 0).length ≤ 10) :=
  ⟨by norm_num, claim_C6_varint_encode_total_minimal 0 (by norm_num)⟩

/-- Claim C9: decoding the empty byte sequence fails with the empty-input
error, and the native decoder is never consulted — the wrapper's result on
the empty input is the same for every native decoder. -/
theorem claim_C9_varint_decode_empty :
    (∀ native : List Nat → Int × Nat,
      decodeVarintWrapper native [] = .error "Empty input data")
    ∧ decode_varint_rust [] = .error "Empty input data" :=
  ⟨fun _ => rfl, rfl⟩

/-- Claim C10: whenever the decode wrapper returns `Ok`, the reported
byte count never exceeds the input length, whatever count the native
decoder reported — the wrapper turns a negative or oversized count into an
error, so callers may slice the input at the returned offset. -/
theorem claim_C10_decode_bytes_read_bounded (native : List Nat → Int × Nat)
    (data : List Nat) (v bytesRead : Nat)
    (h : decodeVarintWrapper native data = .ok (v, bytesRead)) :
    bytesRead ≤ data.length := by
  unfold decodeVarintWrapper at h
  by_cases he : data.isEmpty
  · rw [if_pos he] at h
    exact absurd h (by simp)
  · rw [if_neg he] at h
    by_cases hbr : (native data).1 < 0
    · rw [if_pos hbr] at h
      exact absurd h (by simp)
    · rw [if_neg hbr] at h
      by_cases hlen : (data.length : Int) < (native data).1
      · rw [if_pos hlen] at h
        exact absurd h (by simp)
      · rw [if_neg hlen] at h
        simp only [Except.ok.injEq, Prod.mk.injEq] at h
        rw [← h.2]
        exact Int.toNat_le.mpr (not_lt.mp hlen)

/-- Witness for C10: a fabricated native decoder reporting one byte read
on a two-byte input. -/
theorem claim_C10_decode_bytes_read_bounded_witness :
    decodeVarintWrapper (fun _ => ((1 : Int), 7)) [0, 1] = .ok (7, 1)
    ∧ (1 : Nat) ≤ ([0, 1] : List Nat).length :=
  ⟨rfl, claim_C10_decode_bytes_read_bounded (fun _ => ((1 : Int), 7)) [0, 1] 7 1 rfl⟩

/-! ## Claim theorems: wrapper discipline -/

/-- The free count of a compress-shaped wrapper result: zero when the
CString check rejects or when the backend returns null, one otherwise. -/
lemma compress_trace_free_count (raw : List Nat → Option (List Nat))
    (s : List Nat) (e1 e2 : String) :
    countEvent .callFreeCompressed
        (if 0 ∈ s then ((.error e1 : Except String (List Nat)), ([] : List FFIEvent))
         else match raw s with
           | none => (.error e2, [.callRawCompress s])
           | some buf => (.ok buf, [.callRawCompress s, .callFreeCompressed])).2
      = if 0 ∈ s then 0 else if (raw s).isSome then 1 else 0 := by
  by_cases h0 : 0 ∈ s
  · rw [if_pos h0, if_pos h0]
    rfl
  · rw [if_neg h0, if_neg h0]
    cases hr : raw s <;> simp [countEvent]

/-- The zlib compress wrapper matches the generic compress shape. -/
lemma compress_rust_string_eq_shape (raw : List Nat → Option (List Nat))
    (s : List Nat) :
    compress_rust_string raw s
      = if 0 ∈ s then
          (.error "Failed to create CString, input might contain null bytes", [])
        else match raw s with
          | none => (.error "Compression failed in C library (null buffer returned)",
                     [.callRawCompress s])
          | some buf => (.ok buf, [.callRawCompress s, .callFreeCompressed]) := rfl

/-- The LZ4 compress wrapper matches the generic compress shape. -/
lemma compress_rust_string_lz4_eq_shape (raw : List Nat → Option (List Nat))
    (s : List Nat) :
    compress_rust_string_lz4 raw s
      = if 0 ∈ s then
          (.error "Failed to create CString, input might contain null bytes", [])
        else match raw s with
          | none => (.error "LZ4 Compression failed in C library (null buffer returned)",
                     [.callRawCompress s])
          | some buf => (.ok buf, [.callRawCompress s, .callFreeCompressed]) := rfl

/-- The free count of the zlib decompress wrapper: zero below the 2-byte
floor and on a null backend buffer, one otherwise — in particular one on
the invalid-UTF-8 path. -/
lemma decompress_trace_free_count (raw : List Nat → Option (List Nat))
    (data : List Nat) :
    countEvent .callFreeDecompressed (decompress_rust_data raw data).2
      = if data.length < 2 then 0 else if (raw data).isSome then 1 else 0 := by
  match data with
  | [] => rfl
  | [b] => rfl
  | b :: c :: t =>
    unfold decompress_rust_data
    rw [if_neg (by simp), if_neg (by simp)]
    rw [if_neg (by simp [List.length_cons])]
    cases hr : raw (b :: c :: t)
    · simp [countEvent]
    · rename_i buf
      by_cases hu : isValidUtf8 buf = true <;> simp [countEvent, hu]

/-- The free count of the LZ4 decompress wrapper, same shape. -/
lemma decompress_lz4_trace_free_count (raw : List Nat → Option (List Nat))
    (data : List Nat) :
    countEvent .callFreeDecompressed (decompress_rust_data_lz4 raw data).2
      = if data.length < 2 then 0 else if (raw data).isSome then 1 else 0 := by
  match data with
  | [] => rfl
  | [b] => rfl
  | b :: c :: t =>
    unfold decompress_rust_data_lz4
    rw [if_neg (by simp), if_neg (by simp [List.length_cons])]
    rw [if_neg (by simp [List.length_cons])]
    cases hr : raw (b :: c :: t)
    · simp [countEvent]
    · rename_i buf
      by_cases hu : isValidUtf8 buf = true <;> simp [countEvent, hu]

/-- Claim C3: foreign-buffer release discipline of every compress and
decompress wrapper — when the raw call returns null the wrapper errors and
performs no release; when it returns a buffer the matching release runs
exactly once on every path, the invalid-UTF-8 path included; and no
release ever runs when the raw call was never made. -/
theorem claim_C3_foreign_buffer_release
    (rawC rawD raw4C raw4D : List Nat → Option (List Nat)) (s data : List Nat) :
    (countEvent .callFreeCompressed (compress_rust_string rawC s).2
        = if 0 ∈ s then 0 else if (rawC s).isSome then 1 else 0)
    ∧ (0 ∉ s → rawC s = none → isErr (compress_rust_string rawC s).1 = true)
    ∧ (countEvent .callFreeDecompressed (decompress_rust_data rawD data).2
        = if data.length < 2 then 0 else if (rawD data).isSome then 1 else 0)
    ∧ (2 ≤ data.length → rawD data = none →
        isErr (decompress_rust_data rawD data).1 = true)
    ∧ (countEvent .callFreeCompressed (compress_rust_string_lz4 raw4C s).2
        = if 0 ∈ s then 0 else if (raw4C s).isSome then 1 else 0)
    ∧ (0 ∉ s → raw4C s = none → isErr (compress_rust_string_lz4 raw4C s).1 = true)
    ∧ (countEvent .callFreeDecompressed (decompress_rust_data_lz4 raw4D data).2
        = if data.length < 2 then 0 else if (raw4D data).isSome then 1 else 0)
    ∧ (2 ≤ data.length → raw4D data = none →
        isErr (decompress_rust_data_lz4 raw4D data).1 = true) := by
  refine ⟨?_, ?_, decompress_trace_free_count rawD data, ?_, ?_, ?_,
    decompress_lz4_trace_free_count raw4D data, ?_⟩
  · rw [compress_rust_string_eq_shape]
    exact compress_trace_free_count rawC s _ _
  · intro h0 hr
    unfold compress_rust_string
    rw [if_neg h0, hr]
    rfl
  · intro hlen hr
    match data, hlen with
    | b :: c :: t, _ =>
      unfold decompress_rust_data
      rw [if_neg (by simp), if_neg (by simp [List.length_cons]), hr]
      rfl
  · rw [compress_rust_string_lz4_eq_shape]
    exact compress_trace_free_count raw4C s _ _
  · intro h0 hr
    unfold compress_rust_string_lz4
    rw [if_neg h0, hr]
    rfl
  · intro hlen hr
    match data, hlen with
    | b :: c :: t, _ =>
      unfold decompress_rust_data_lz4
      rw [if_neg (by simp), if_neg (by simp [List.length_cons]), hr]
      rfl

/-- Witness for C3: a null-returning backend on concrete inputs — the
wrappers error out (and, per the count equations, perform no release). -/
theorem claim_C3_foreign_buffer_release_witness :
    isErr (compress_rust_string (fun _ => none) [104]).1 = true
    ∧ isErr (decompress_rust_data (fun _ => none) [1, 2]).1 = true
    ∧ isErr (compress_rust_string_lz4 (fun _ => none) [104]).1 = true
    ∧ isErr (decompress_rust_data_lz4 (fun _ => none) [1, 2]).1 = true :=
  ⟨(claim_C3_foreign_buffer_release (fun _ => none) (fun _ => none) (fun _ => none)
      (fun _ => none) [104] [1, 2]).2.1 (by decide) rfl,
   (claim_C3_foreign_buffer_release (fun _ => none) (fun _ => none) (fun _ => none)
      (fun _ => none) [104] [1, 2]).2.2.2.1 (by decide) rfl,
   (claim_C3_foreign_buffer_release (fun _ => none) (fun _ => none) (fun _ => none)
      (fun _ => none) [104] [1, 2]).2.2.2.2.2.1 (by decide) rfl,
   (claim_C3_foreign_buffer_release (fun _ => none) (fun _ => none) (fun _ => none)
      (fun _ => none) [104] [1, 2]).2.2.2.2.2.2.2 (by decide) rfl⟩

/-- Claim C4: compression rejects embedded zero bytes — with a zero byte
present every compress wrapper fails with the CString error before any
backend call (empty trace); without one, that error is never produced. -/
theorem claim_C4_null_byte_rejection
    (rawZ raw4 rawS : List Nat → Option (List Nat)) (s : List Nat) :
    (0 ∈ s →
      compress_rust_string rawZ s
          = (.error "Failed to create CString, input might contain null bytes", [])
      ∧ compress_rust_string_lz4 raw4 s
          = (.error "Failed to create CString, input might contain null bytes", [])
      ∧ compress_rust_string_zstd rawS s
          = (.error "Failed to create CString, input might contain null bytes", []))
    ∧ (0 ∉ s →
      (compress_rust_string rawZ s).1
          ≠ .error "Failed to create CString, input might contain null bytes"
      ∧ (compress_rust_string_lz4 raw4 s).1
          ≠ .error "Failed to create CString, input might contain null bytes"
      ∧ (compress_rust_string_zstd rawS s).1
          ≠ .error "Failed to create CString, input might contain null bytes") := by
  constructor
  · intro h0
    unfold compress_rust_string compress_rust_string_lz4 compress_rust_string_zstd
    rw [if_pos h0, if_pos h0, if_pos h0]
    exact ⟨rfl, rfl, rfl⟩
  · intro h0
    unfold compress_rust_string compress_rust_string_lz4 compress_rust_string_zstd
    rw [if_neg h0, if_neg h0, if_neg h0]
    refine ⟨?_, ?_, ?_⟩
    · cases hr : rawZ s <;> simp
    · cases hr : raw4 s <;> simp
    · cases hr : rawS s <;> simp

/-- Witness for C4: the null-carrying input `"h\x00w"` is rejected by all
three wrappers with an empty trace; the null-free input `"h"` never sees
the CString error. -/
theorem claim_C4_null_byte_rejection_witness :
    (compress_rust_string (fun _ => none) [104, 0, 119]
        = (.error "Failed to create CString, input might contain null bytes", [])
     ∧ compress_rust_string_lz4 (fun _ => none) [104, 0, 119]
        = (.error "Failed to create CString, input might contain null bytes", [])
     ∧ compress_rust_string_zstd (fun _ => none) [104, 0, 119]
        = (.error "Failed to create CString, input might contain null bytes", []))
    ∧ ((compress_rust_string (fun _ => none) [104]).1
        ≠ .error "Failed to create CString, input might contain null bytes"
     ∧ (compress_rust_string_lz4 (fun _ => none) [104]).1
        ≠ .error "Failed to create CString, input might contain null bytes"
     ∧ (compress_rust_string_zstd (fun _ => none) [104]).1
        ≠ .error "Failed to create CString, input might contain null bytes") :=
  ⟨(claim_C4_null_byte_rejection (fun _ => none) (fun _ => none) (fun _ => none)
      [104, 0, 119]).1 (by decide),
   (claim_C4_null_byte_rejection (fun _ => none) (fun _ => none) (fun _ => none)
      [104]).2 (by decide)⟩

/-- Claim C5: structural minimum on decompress input — on any byte
sequence of length 0 or 1, both decompress wrappers return the structural
error of the source and never invoke the raw backend (empty trace). -/
theorem claim_C5_decompress_small_input
    (rawZ raw4 : List Nat → Option (List Nat)) (data : List Nat)
    (h : data.length < 2) :
    decompress_rust_data rawZ data
        = (.error (if data.isEmpty then "Empty input data"
            else "Input too small for valid compressed data"), [])
    ∧ decompress_rust_data_lz4 raw4 data
        = (.error (if data.isEmpty then "Empty input data for LZ4 decompression"
            else "Input too small for valid LZ4 compressed data"), []) := by
  match data with
  | [] => exact ⟨rfl, rfl⟩
  | [b] => exact ⟨rfl, rfl⟩
  | b :: c :: t => exact absurd h (by simp [List.length_cons])

/-- Witness for C5 on the one-byte input `[5]`. -/
theorem claim_C5_decompress_small_input_witness :
    ([5] : List Nat).length < 2
    ∧ (decompress_rust_data (fun _ => some [104]) [5]
        = (.error "Input too small for valid compressed data", [])
       ∧ decompress_rust_data_lz4 (fun _ => some [104]) [5]
        = (.error "Input too small for valid LZ4 compressed data", [])) :=
  ⟨by decide,
   claim_C5_decompress_small_input (fun _ => some [104]) (fun _ => some [104]) [5]
     (by decide)⟩

/-! ## Claim theorems: container format -/

/-- Length facts for a well-formed container: header plus non-empty
payload is never empty and never a single byte. -/
lemma container_length_facts (n : Nat) (p : List Nat) (hp : p ≠ []) :
    (encodeVarintCore n ++ p).isEmpty = false
    ∧ (encodeVarintCore n ++ p).length ≠ 1
    ∧ ¬ (encodeVarintCore n ++ p).length < 2 := by
  have h1 := encodeVarintCore_length_pos n
  have h2 : 1 ≤ p.length := by
    cases p with
    | nil => exact absurd rfl hp
    | cons a l => simp
  refine ⟨?_, ?_, ?_⟩
  · cases henc : encodeVarintCore n with
    | nil => exact absurd henc (encodeVarintCore_ne_nil n)
    | cons a l => rfl
  · rw [List.length_append]
    omega
  · rw [List.length_append]
    omega

/-- Claim C1: container round-trip — for each of the three backend pairs,
whenever the black-box backend compresses the text to some non-empty
payload and decompresses that payload back (with the original length as
the size hint), the facade round-trips: compress succeeds and decompress
of its output returns exactly the original null-free UTF-8 text. -/
theorem claim_C1_container_roundtrip
    (bbZC : List Nat → Option (List Nat)) (bbZD : List Nat → Nat → Option (List Nat))
    (bb4C : List Nat → Option (List Nat)) (bb4D : List Nat → Nat → Option (List Nat))
    (bbSC : List Nat → Option (List Nat)) (bbSD : List Nat → Nat → Option (List Nat))
    (s pZ p4 pS : List Nat)
    (hs0 : 0 ∉ s) (hsUtf : isValidUtf8 s = true) (hslen : s.length < 2 ^ 64)
    (hZC : bbZC s = some pZ) (hZne : pZ ≠ []) (hZD : bbZD pZ s.length = some s)
    (h4C : bb4C s = some p4) (h4ne : p4 ≠ []) (h4D : bb4D p4 s.length = some s)
    (hSC : bbSC s = some pS) (hSne : pS ≠ []) (hSD : bbSD pS s.length = some s) :
    ((compress_rust_string (compress_string bbZC) s).1
        = .ok (encodeVarintCore s.length ++ pZ)
     ∧ (decompress_rust_data (decompress_data bbZD)
          (encodeVarintCore s.length ++ pZ)).1 = .ok s)
    ∧ ((compress_rust_string_lz4 (compress_string bb4C) s).1
        = .ok (encodeVarintCore s.length ++ p4)
     ∧ (decompress_rust_data_lz4 (decompress_data bb4D)
          (encodeVarintCore s.length ++ p4)).1 = .ok s)
    ∧ ((compress_rust_string_zstd (compress_string bbSC) s).1
        = .ok (encodeVarintCore s.length ++ pS)
     ∧ (decompress_rust_data_zstd (decompress_data bbSD)
          (encodeVarintCore s.length ++ pS)).1 = .ok s) := by
  have hZfacts := container_length_facts s.length pZ hZne
  have h4facts := container_length_facts s.length p4 h4ne
  have hSfacts := container_length_facts s.length pS hSne
  have hZdec := decompress_data_container bbZD pZ s.length hslen
  have h4dec := decompress_data_container bb4D p4 s.length hslen
  have hSdec := decompress_data_container bbSD pS s.length hslen
  refine ⟨⟨?_, ?_⟩, ⟨?_, ?_⟩, ⟨?_, ?_⟩⟩
  · unfold compress_rust_string compress_string
    rw [if_neg hs0, hZC]
  · unfold decompress_rust_data
    rw [hZfacts.1, if_neg (by simp), if_neg hZfacts.2.1, hZdec, hZD]
    simp [hsUtf]
  · unfold compress_rust_string_lz4 compress_string
    rw [if_neg hs0, h4C]
  · unfold decompress_rust_data_lz4
    rw [h4facts.1, if_neg (by simp), if_neg h4facts.2.2, h4dec, h4D]
    simp [hsUtf]
  · unfold compress_rust_string_zstd compress_string
    rw [if_neg hs0, hSC]
  · unfold decompress_rust_data_zstd
    rw [hSfacts.1, if_neg (by simp), if_neg hSfacts.2.2, hSdec, hSD]
    simp [hsUtf]

/-- A schematic backend for concrete runs: compression prepends a zero
byte, decompression strips it after checking the size hint. -/
def toyCompress (b : List Nat) : Option (List Nat) := some (0 :: b)

/-- Inverse of `toyCompress` with a strict size-hint check. -/
def toyDecompress (q : List Nat) (n : Nat) : Option (List Nat) :=
  match q with
  | 0 :: r => if r.length = n then some r else none
  | _ => none

/-- Witness for C1: the text `"hi"` round-trips through all three wrapper
pairs over the schematic backend. -/
theorem claim_C1_container_roundtrip_witness :
    ((compress_rust_string (compress_string toyCompress) [104, 105]).1
        = .ok (encodeVarintCore 2 ++ [0, 104, 105])
     ∧ (decompress_rust_data (decompress_data toyDecompress)
          (encodeVarintCore 2 ++ [0, 104, 105])).1 = .ok [104, 105])
    ∧ ((compress_rust_string_lz4 (compress_string toyCompress) [104, 105]).1
        = .ok (encodeVarintCore 2 ++ [0, 104, 105])
     ∧ (decompress_rust_data_lz4 (decompress_data toyDecompress)
          (encodeVarintCore 2 ++ [0, 104, 105])).1 = .ok [104, 105])
    ∧ ((compress_rust_string_zstd (compress_string toyCompress) [104, 105]).1
        = .ok (encodeVarintCore 2 ++ [0, 104, 105])
     ∧ (decompress_rust_data_zstd (decompress_data toyDecompress)
          (encodeVarintCore 2 ++ [0, 104, 105])).1 = .ok [104, 105]) :=
  claim_C1_container_roundtrip toyCompress toyDecompress toyCompress toyDecompress
    toyCompress toyDecompress [104, 105] [0, 104, 105] [0, 104, 105] [0, 104, 105]
    (by decide) (by decide) (by norm_num)
    rfl (by decide) rfl rfl (by decide) rfl rfl (by decide) rfl

/-- A 32767-byte ASCII text.  Its length has varint encoding
`FF FF 01`, so a container for it already begins with `0xFF 0xFF`. -/
def bigText : List Nat := List.replicate 32767 97

/-- The length 32767 encodes to the bytes `FF FF 01`. -/
lemma encodeVarintCore_32767 : encodeVarintCore 32767 = [0xFF, 0xFF, 0x01] := by
  rw [encodeVarintCore_of_ge 32767 (by norm_num)]
  norm_num
  rw [encodeVarintCore_of_ge 255 (by norm_num)]
  norm_num
  exact encodeVarintCore_of_lt 1 (by norm_num)

/-- Overwriting the first two bytes with `0xFF 0xFF` is the identity on a
sequence already starting with those bytes. -/
lemma corruptFirstTwo_ff_ff (r : List Nat) :
    corruptFirstTwo (0xFF :: 0xFF :: r) = 0xFF :: 0xFF :: r := rfl

/-- The schematic backend decompresses its own payload exactly when the
size hint matches. -/
lemma toyDecompress_exact (r : List Nat) : toyDecompress (0 :: r) r.length = some r := by
  show (if r.length = r.length then some r else none) = some r
  rw [if_pos rfl]

/-- The length of `bigText`. -/
lemma bigText_length : bigText.length = 32767 := by
  show (List.replicate 32767 97).length = 32767
  exact List.length_replicate 32767 97

/-- The zero byte does not occur in `bigText`. -/
lemma bigText_no_zero : 0 ∉ bigText := by
  intro h
  unfold bigText at h
  have h2 := (List.mem_replicate.mp h).2
  norm_num at h2

/-- Counterexample to claim C8 as stated: for the null-free 32767-byte
text, the container header is already `FF FF 01`, so overwriting the first
two bytes with `0xFF 0xFF` does not change the container at all and
decompress succeeds with the original text instead of failing — over a
backend that round-trips the text, as the three real backends do. -/
theorem claim_C8_corrupted_header_counterexample :
    0 ∉ bigText
    ∧ (compress_rust_string (compress_string toyCompress) bigText).1
        = .ok (encodeVarintCore bigText.length ++ (0 :: bigText))
    ∧ corruptFirstTwo (encodeVarintCore bigText.length ++ (0 :: bigText))
        = encodeVarintCore bigText.length ++ (0 :: bigText)
    ∧ (decompress_rust_data (decompress_data toyDecompress)
        (corruptFirstTwo (encodeVarintCore bigText.length ++ (0 :: bigText)))).1
        = .ok bigText := by
  have henc : encodeVarintCore bigText.length = [0xFF, 0xFF, 0x01] := by
    rw [bigText_length, encodeVarintCore_32767]
  have hcor : corruptFirstTwo (encodeVarintCore bigText.length ++ (0 :: bigText))
      = encodeVarintCore bigText.length ++ (0 :: bigText) := by
    rw [henc, List.cons_append, List.cons_append, List.cons_append, List.nil_append]
    exact corruptFirstTwo_ff_ff (1 :: 0 :: bigText)
  have hfacts := container_length_facts bigText.length (0 :: bigText)
    (List.cons_ne_nil 0 bigText)
  have hdec := decompress_data_container toyDecompress (0 :: bigText) bigText.length
    (by rw [bigText_length]; norm_num)
  have hutf : isValidUtf8 bigText = true := by
    unfold bigText
    exact isValidUtf8_replicate 32767 97 (by norm_num)
  refine ⟨bigText_no_zero, ?_, hcor, ?_⟩
  · unfold compress_rust_string compress_string toyCompress
    rw [if_neg bigText_no_zero]
  · rw [hcor]
    unfold decompress_rust_data
    rw [hfacts.1, if_neg (by simp), if_neg hfacts.2.1, hdec, toyDecompress_exact]
    simp [hutf]

/-- Claim C8 amended: overwriting the first two bytes of a container with
`0xFF 0xFF` makes decompress fail whenever the backend rejects every
suffix of the corrupted sequence taken at the realigned header offsets
(at least 3 bytes in, since both overwritten bytes carry the continuation
bit) — without that proviso the claim fails, because a container whose
first two bytes are already `0xFF 0xFF` is unchanged by the overwrite and
decompresses to the original text. -/
theorem claim_C8_corrupted_header_rejected_amended
    (bbD : List Nat → Nat → Option (List Nat)) (data : List Nat)
    (hfail : ∀ k n, 3 ≤ k → bbD ((corruptFirstTwo data).drop k) n = none) :
    isErr (decompress_rust_data (decompress_data bbD) (corruptFirstTwo data)).1
      = true := by
  match data with
  | [] => rfl
  | [a] => rfl
  | a :: b :: t =>
    have hcor : corruptFirstTwo (a :: b :: t) = 0xFF :: 0xFF :: t := rfl
    rw [hcor] at hfail ⊢
    unfold decompress_rust_data
    rw [if_neg (by simp), if_neg (by simp [List.length_cons])]
    unfold decompress_data
    cases haux : decodeVarintAux (0xFF :: 0xFF :: t) 0 0 0 with
    | none => rfl
    | some r =>
      obtain ⟨L, k⟩ := r
      have h3 : 3 ≤ k := decodeVarintAux_ff_ff t L k haux
      simp [isErr, hfail k L h3]

/-- Witness for the amended C8 over an always-failing backend on the
concrete input `[1, 2, 3]`. -/
theorem claim_C8_corrupted_header_rejected_amended_witness :
    isErr (decompress_rust_data (decompress_data (fun _ _ => none))
        (corruptFirstTwo [1, 2, 3])).1 = true :=
  claim_C8_corrupted_header_rejected_amended (fun _ _ => none) [1, 2, 3]
    (fun _ _ _ => rfl)
